import Mathlib

/-
Shallow embedding of the RandSqrt point-generation and selection routine
(`generatePoints`, `handleTargetInput`, `handlePointsInput` in
`src/routes/+page.svelte`).

Modelling choices:
* JavaScript numbers are modelled as rationals (`ℚ`); the arithmetic the
  routine performs on them (multiplication, `Math.floor`, `Math.max`,
  comparisons) is exact on the values the claims are about.
* `Math.random()` is modelled as an ambient stream `rand : ℕ → ℚ` of draws;
  the k-th generated point consumes draws `2*k` and `2*k+1` (x first, then
  y), exactly as the generation loop calls `Math.random()` twice per point.
* `Array.prototype.sort` with comparator `(a, b) => a.max - b.max` is a
  stable sort (ES2019) producing an order non-decreasing in `max`; it is
  modelled by the stable `List.mergeSort` with the ordering `a.max ≤ b.max`.
* `Math.sqrt` is modelled by `Real.sqrt` on the rational cast into `ℝ`.
-/

namespace RandSqrt

/-- A generated point before the selection pass: the object literal
`{ x, y, max: Math.max(x, y) }` built inside the generation loop. -/
structure RawPoint where
  x : ℚ
  y : ℚ
  max : ℚ
deriving DecidableEq, Repr

/-- A point after the selection pass: `{ ...p, selected: i <= cutoffIndex }`. -/
structure Point where
  x : ℚ
  y : ℚ
  max : ℚ
  selected : Bool
deriving DecidableEq, Repr

/-- Builds the object literal `{ x, y, max: Math.max(x, y) }`. -/
def mkRawPoint (x y : ℚ) : RawPoint :=
  { x := x, y := y, max := max x y }

/-- The k-th generated point: `const x = Math.random(); const y = Math.random();`
consuming draws `2*k` and `2*k+1` of the ambient stream. -/
def drawPoint (rand : ℕ → ℚ) (k : ℕ) : RawPoint :=
  mkRawPoint (rand (2 * k)) (rand (2 * k + 1))

/-- Source line `const chunkSize = 1000;`. -/
def chunkSize : ℕ := 1000

/-- The generation loop `for (let i = 0; i < numPoints; i += chunkSize)`:
each iteration builds `Array.from({ length: Math.min(chunkSize, numPoints - i) }, ...)`
and appends it (`newPoints.push(...chunk)`). -/
def chunkLoop (rand : ℕ → ℚ) (numPoints i : ℕ) : List RawPoint :=
  if i < numPoints then
    ((List.range (min chunkSize (numPoints - i))).map (fun j => drawPoint rand (i + j)))
      ++ chunkLoop rand numPoints (i + chunkSize)
  else []
termination_by numPoints - i
decreasing_by simp only [chunkSize] at *; omega

/-- The full `newPoints` array accumulated by the chunked generation loop. -/
def newPoints (rand : ℕ → ℚ) (numPoints : ℕ) : List RawPoint :=
  chunkLoop rand numPoints 0

/-- Source line `newPoints.sort((a, b) => a.max - b.max)`: stable sort, ascending in `max`. -/
def sortByMax (l : List RawPoint) : List RawPoint :=
  l.mergeSort (fun a b => decide (a.max ≤ b.max))

/-- Source line `const cutoffIndex = Math.floor(newPoints.length * targetValue);`. -/
def cutoffIndex (len : ℕ) (targetValue : ℚ) : ℤ :=
  Int.floor ((len : ℚ) * targetValue)

/-- The body of `newPoints.map((p, i) => ({ ...p, selected: i <= cutoffIndex }))`,
tracking the running index `i` explicitly. -/
def markFrom (c : ℤ) (i : ℕ) : List RawPoint → List Point
  | [] => []
  | p :: rest => { x := p.x, y := p.y, max := p.max, selected := decide ((i : ℤ) ≤ c) }
      :: markFrom c (i + 1) rest

/-- Source line `points = newPoints.map((p, i) => ({ ...p, selected: i <= cutoffIndex }));`. -/
def markSelected (c : ℤ) (l : List RawPoint) : List Point :=
  markFrom c 0 l

/-- Source line `approximatedSqrt = points[cutoffIndex]?.max || 0;` — an out-of-range
(or negative) index gives `undefined`, and `undefined || 0` as well as the
falsy number `0 || 0` evaluate to `0`. -/
def approxAt (pts : List Point) (c : ℤ) : ℚ :=
  match (if 0 ≤ c then pts[c.toNat]? else none) with
  | some p => if p.max = 0 then 0 else p.max
  | none => 0

/-- The observable result of one run of `generatePoints`: the fresh `points`
array and the `approximatedSqrt` scalar. -/
structure GenResult where
  points : List Point
  approximatedSqrt : ℚ
deriving Repr

/-- The core routine `generatePoints` of `src/routes/+page.svelte`
(lines 37-69, the plotting call excluded): chunked generation, in-place sort
by `max`, cutoff at `Math.floor(newPoints.length * targetValue)`, selection
of indices `i <= cutoffIndex`, and the `|| 0` fallback for the approximation. -/
def generatePoints (rand : ℕ → ℚ) (targetValue : ℚ) (numPoints : ℕ) : GenResult :=
  let np := newPoints rand numPoints
  let sorted := sortByMax np
  let c := cutoffIndex sorted.length targetValue
  let pts := markSelected c sorted
  { points := pts, approximatedSqrt := approxAt pts c }

/-- Modelled from the spec: the single-pass generation of all `numPoints`
points at once (`Array.from({ length: numPoints }, ...)`), as in the
pre-chunking revision of the routine; used as the reference side of the
chunking-equivalence claim. -/
def newPointsSinglePass (rand : ℕ → ℚ) (numPoints : ℕ) : List RawPoint :=
  (List.range numPoints).map (drawPoint rand)

/-- Modelled from the spec: `generatePoints` with the generation done in a
single pass instead of chunks; sorting, cutoff, selection and fallback are
identical to the chunked routine. -/
def generatePointsSinglePass (rand : ℕ → ℚ) (targetValue : ℚ) (numPoints : ℕ) : GenResult :=
  let np := newPointsSinglePass rand numPoints
  let sorted := sortByMax np
  let c := cutoffIndex sorted.length targetValue
  let pts := markSelected c sorted
  { points := pts, approximatedSqrt := approxAt pts c }

/-- Source line `numPoints = Math.max(100, Math.min(10000, tempNumPoints));` — the value
`handlePointsInput` stores and passes on to `generatePoints`. -/
def handlePointsInput (tempNumPoints : ℚ) : ℚ :=
  max 100 (min 10000 tempNumPoints)

/-- Source line `targetValue = Math.max(0, Math.min(1, tempTargetValue));` — the value
`handleTargetInput` stores and passes on to `generatePoints`. -/
def handleTargetInput (tempTargetValue : ℚ) : ℚ :=
  max 0 (min 1 tempTargetValue)

/-- Source line `actualSqrt = Math.sqrt(targetValue);`. -/
noncomputable def actualSqrt (targetValue : ℚ) : ℝ :=
  Real.sqrt (targetValue : ℝ)

/-- The invariant each point of the output is claimed to satisfy:
`max = max(x, y)` and both coordinates lie in `[0, 1]`. -/
def pointInvariant (p : Point) : Bool :=
  decide (p.max = max p.x p.y) && decide (0 ≤ p.x) && decide (p.x ≤ 1)
    && decide (0 ≤ p.y) && decide (p.y ≤ 1)

/-- Decidable form of the prefix property: for every ordered pair of points
in the list, a selected point never has a larger `max` than an unselected
one. -/
def selectedBeforeUnselected (l : List Point) : Bool :=
  l.all (fun p => l.all (fun q =>
    !(p.selected && !q.selected) || decide (p.max ≤ q.max)))

/-- The all-zero draw stream, used to instantiate theorems at concrete inputs. -/
def randZero : ℕ → ℚ := fun _ => 0

end RandSqrt

namespace RandSqrt

/-- Unrolling the chunked generation loop: from index `i` on it produces
exactly the points `drawPoint rand (i + j)` for `j < numPoints - i`. -/
theorem chunkLoop_eq (rand : ℕ → ℚ) (n i : ℕ) :
    chunkLoop rand n i = (List.range (n - i)).map (fun j => drawPoint rand (i + j)) := by
  by_cases h : i < n
  · by_cases h2 : n - i ≤ chunkSize
    · rw [chunkLoop, if_pos h, chunkLoop,
        if_neg (by simp only [chunkSize] at h2 ⊢; omega)]
      rw [Nat.min_eq_right h2, List.append_nil]
    · have hmin : min chunkSize (n - i) = chunkSize := Nat.min_eq_left (by omega)
      have hsplit : n - i = chunkSize + (n - (i + chunkSize)) := by
        simp only [chunkSize] at h2 ⊢; omega
      have hsec : (List.range (n - (i + chunkSize))).map
            (fun j => drawPoint rand (i + chunkSize + j))
          = ((List.range (n - (i + chunkSize))).map (fun x => chunkSize + x)).map
            (fun j => drawPoint rand (i + j)) := by
        rw [List.map_map]
        apply List.map_congr_left
        intro j _
        simp only [Function.comp_apply]
        rw [Nat.add_assoc]
      rw [chunkLoop, if_pos h, chunkLoop_eq rand n (i + chunkSize), hmin, hsec,
        ← List.map_append, ← List.range_add, ← hsplit]
  · rw [chunkLoop, if_neg h]
    have : n - i = 0 := by omega
    rw [this]
    rfl
termination_by n - i
decreasing_by simp only [chunkSize] at *; omega

/-- Chunked generation and single-pass generation produce the same array. -/
theorem newPoints_eq_singlePass (rand : ℕ → ℚ) (n : ℕ) :
    newPoints rand n = newPointsSinglePass rand n := by
  rw [newPoints, chunkLoop_eq, newPointsSinglePass, Nat.sub_zero]
  apply List.map_congr_left
  intro j _
  rw [Nat.zero_add]

/-- The generated array has exactly `numPoints` elements. -/
theorem length_newPoints (rand : ℕ → ℚ) (n : ℕ) :
    (newPoints rand n).length = n := by
  rw [newPoints_eq_singlePass, newPointsSinglePass, List.length_map, List.length_range]

/-- Sorting does not change the length. -/
theorem length_sortByMax (l : List RawPoint) :
    (sortByMax l).length = l.length :=
  List.length_mergeSort l

/-- The sorted array is a permutation of the generated one. -/
theorem sortByMax_perm (l : List RawPoint) : (sortByMax l).Perm l :=
  List.mergeSort_perm l _

/-- The sorted array is pairwise non-decreasing in `max`. -/
theorem sortByMax_pairwise (l : List RawPoint) :
    (sortByMax l).Pairwise (fun a b => a.max ≤ b.max) := by
  have h := @List.sorted_mergeSort RawPoint
    (fun a b => decide (a.max ≤ b.max))
    (fun a b c hab hbc => by
      simp only [decide_eq_true_eq] at hab hbc ⊢
      exact le_trans hab hbc)
    (fun a b => by
      simp only [Bool.or_eq_true, decide_eq_true_eq]
      exact le_total a.max b.max)
    l
  simpa only [decide_eq_true_eq] using h

/-- The selection pass does not change the length. -/
theorem length_markFrom (c : ℤ) (i : ℕ) (l : List RawPoint) :
    (markFrom c i l).length = l.length := by
  induction l generalizing i with
  | nil => rfl
  | cons p rest ih => simp only [markFrom, List.length_cons, ih]

/-- Element-wise description of the selection pass: position `k` of the
output carries the coordinates of position `k` of the input and the flag
`decide (i + k ≤ c)`. -/
theorem getElem?_markFrom (c : ℤ) (i : ℕ) (l : List RawPoint) (k : ℕ) :
    (markFrom c i l)[k]? = l[k]?.map
      (fun p => { x := p.x, y := p.y, max := p.max,
                  selected := decide (((i + k : ℕ) : ℤ) ≤ c) }) := by
  induction l generalizing i k with
  | nil => simp [markFrom]
  | cons p rest ih =>
    cases k with
    | zero => simp [markFrom]
    | succ k =>
      have hik : i + 1 + k = i + (k + 1) := by omega
      simp only [markFrom, List.getElem?_cons_succ]
      rw [ih, hik]

/-- Membership in the output of the selection pass comes from membership in
its input, with the three coordinate fields unchanged. -/
theorem mem_markFrom (c : ℤ) (i : ℕ) (l : List RawPoint) (q : Point)
    (hq : q ∈ markFrom c i l) :
    ∃ p ∈ l, q.x = p.x ∧ q.y = p.y ∧ q.max = p.max := by
  induction l generalizing i with
  | nil => simp [markFrom] at hq
  | cons p rest ih =>
    simp only [markFrom, List.mem_cons] at hq
    cases hq with
    | inl h => exact ⟨p, List.mem_cons_self p rest, by rw [h]; exact ⟨rfl, rfl, rfl⟩⟩
    | inr h =>
      obtain ⟨r, hr, hx, hy, hm⟩ := ih (i + 1) h
      exact ⟨r, List.mem_cons_of_mem p hr, hx, hy, hm⟩

/-- The selection pass preserves pairwise order in `max`. -/
theorem pairwise_markFrom (c : ℤ) (i : ℕ) (l : List RawPoint)
    (hl : l.Pairwise (fun a b => a.max ≤ b.max)) :
    (markFrom c i l).Pairwise (fun a b : Point => a.max ≤ b.max) := by
  induction l generalizing i with
  | nil => exact List.Pairwise.nil
  | cons p rest ih =>
    rw [List.pairwise_cons] at hl
    refine List.Pairwise.cons ?_ (ih (i + 1) hl.2)
    intro q hq
    obtain ⟨r, hr, _, _, hm⟩ := mem_markFrom c (i + 1) rest q hq
    simpa only [hm] using hl.1 r hr

/-- Counting the selected flags set by the selection pass starting at index
`i`: it is the number of indices in `[i, i + length)` that are `≤ c`. -/
theorem countP_markFrom (c : ℤ) (i : ℕ) (l : List RawPoint) :
    (markFrom c i l).countP Point.selected = (min (c + 1 - i) (l.length : ℤ)).toNat := by
  induction l generalizing i with
  | nil =>
    simp only [markFrom, List.countP_nil, List.length_nil, Nat.cast_zero]
    omega
  | cons p rest ih =>
    rw [markFrom, List.countP_cons, ih (i + 1)]
    by_cases h : (i : ℤ) ≤ c
    · have : Point.selected
          { x := p.x, y := p.y, max := p.max, selected := decide ((i : ℤ) ≤ c) } = true := by
        simpa [Point.selected] using h
      rw [this, if_pos rfl]
      simp only [List.length_cons]
      push_cast
      omega
    · have : Point.selected
          { x := p.x, y := p.y, max := p.max, selected := decide ((i : ℤ) ≤ c) } = false := by
        simpa [Point.selected] using h
      rw [this]
      simp only [Bool.false_eq_true, if_false, Nat.add_zero, List.length_cons]
      push_cast
      omega

/-- The output of `generatePoints` has exactly `numPoints` elements. -/
theorem length_generatePoints (rand : ℕ → ℚ) (t : ℚ) (n : ℕ) :
    (generatePoints rand t n).points.length = n := by
  rw [generatePoints]
  simp only [markSelected]
  rw [length_markFrom, length_sortByMax, length_newPoints]

end RandSqrt

namespace RandSqrt

/-- The points array of a run, written out as the selection pass over the
sorted generated array, with the cutoff at `Math.floor(numPoints * targetValue)`. -/
theorem generatePoints_points (rand : ℕ → ℚ) (t : ℚ) (n : ℕ) :
    (generatePoints rand t n).points
      = markFrom (Int.floor ((n : ℚ) * t)) 0 (sortByMax (newPoints rand n)) := by
  show markSelected (cutoffIndex (sortByMax (newPoints rand n)).length t)
      (sortByMax (newPoints rand n)) = _
  rw [length_sortByMax, length_newPoints]
  rfl

/-- The approximation of a run, written as the fallback lookup at index
`Math.floor(numPoints * targetValue)` in the run's points array. -/
theorem generatePoints_approx (rand : ℕ → ℚ) (t : ℚ) (n : ℕ) :
    (generatePoints rand t n).approximatedSqrt
      = approxAt (generatePoints rand t n).points (Int.floor ((n : ℚ) * t)) := by
  show approxAt (markSelected (cutoffIndex (sortByMax (newPoints rand n)).length t)
      (sortByMax (newPoints rand n)))
      (cutoffIndex (sortByMax (newPoints rand n)).length t) = _
  rw [generatePoints_points, length_sortByMax, length_newPoints]
  rfl

/-- Element-wise description of a run's points array. -/
theorem getElem?_points (rand : ℕ → ℚ) (t : ℚ) (n k : ℕ) :
    (generatePoints rand t n).points[k]?
      = ((sortByMax (newPoints rand n))[k]?).map
        (fun p => { x := p.x, y := p.y, max := p.max,
                    selected := decide ((k : ℤ) ≤ Int.floor ((n : ℚ) * t)) }) := by
  rw [generatePoints_points, getElem?_markFrom]
  simp only [Nat.zero_add]

/-- The selected flag of the point stored at position `k` is exactly
`k ≤ Math.floor(numPoints * targetValue)`. -/
theorem selected_of_getElem? (rand : ℕ → ℚ) (t : ℚ) (n k : ℕ) (p : Point)
    (hp : (generatePoints rand t n).points[k]? = some p) :
    p.selected = decide ((k : ℤ) ≤ Int.floor ((n : ℚ) * t)) := by
  rw [getElem?_points] at hp
  cases hs : (sortByMax (newPoints rand n))[k]? with
  | none => rw [hs] at hp; simp at hp
  | some rp =>
    rw [hs] at hp
    simp only [Option.map_some'] at hp
    rw [← Option.some_inj.mp hp]

/-- The points array of a run is pairwise non-decreasing in `max`. -/
theorem points_pairwise (rand : ℕ → ℚ) (t : ℚ) (n : ℕ) :
    (generatePoints rand t n).points.Pairwise (fun a b => a.max ≤ b.max) := by
  rw [generatePoints_points]
  exact pairwise_markFrom _ _ _ (sortByMax_pairwise _)

end RandSqrt

namespace RandSqrt

/-- C1: for every draw stream, every `numPoints`, and every `targetValue` in
`[0, 1]`, the number of points with `selected = true` in the output of
`generatePoints` equals `floor(numPoints * targetValue) + 1` clamped above to
`numPoints`; the clamp below at `0` is vacuous because the floor is
nonnegative on this domain, and the `+1` inclusive off-by-one is preserved
exactly as in the source. -/
theorem selectedCount_floor_succ_clamped (rand : ℕ → ℚ) (t : ℚ) (n : ℕ)
    (h0 : 0 ≤ t) (_h1 : t ≤ 1) :
    (generatePoints rand t n).points.countP Point.selected
      = min ((Int.floor ((n : ℚ) * t)).toNat + 1) n := by
  have hc : 0 ≤ Int.floor ((n : ℚ) * t) :=
    Int.floor_nonneg.mpr (mul_nonneg (Nat.cast_nonneg n) h0)
  rw [generatePoints_points, countP_markFrom, length_sortByMax, length_newPoints]
  generalize Int.floor ((n : ℚ) * t) = c at hc ⊢
  push_cast
  omega

/-- Witness for C1 at `targetValue = 1/2`, `numPoints = 100`. -/
theorem selectedCount_floor_succ_clamped_witness :
    (generatePoints randZero (1 / 2) 100).points.countP Point.selected
      = min ((Int.floor (((100 : ℕ) : ℚ) * (1 / 2))).toNat + 1) 100 :=
  selectedCount_floor_succ_clamped randZero (1 / 2) 100 (by norm_num) (by norm_num)

/-- C2: for every draw stream, every `numPoints`, and every
`targetValue ≥ 0` (so in particular on the whole clamped domain), the
returned `approximatedSqrt` is the `max` of the point stored at index
`floor(numPoints * targetValue)` of the ordered sequence when that index is
in range, and the defined fallback `0` otherwise (the routine is a total
function, so the degenerate case cannot fail). -/
theorem approximatedSqrt_cutoff_or_fallback (rand : ℕ → ℚ) (t : ℚ) (n : ℕ)
    (h0 : 0 ≤ t) :
    (generatePoints rand t n).approximatedSqrt
      = (((generatePoints rand t n).points[(Int.floor ((n : ℚ) * t)).toNat]?).map
          Point.max).getD 0 := by
  have hc : 0 ≤ Int.floor ((n : ℚ) * t) :=
    Int.floor_nonneg.mpr (mul_nonneg (Nat.cast_nonneg n) h0)
  rw [generatePoints_approx]
  unfold approxAt
  rw [if_pos hc]
  cases hp : (generatePoints rand t n).points[(Int.floor ((n : ℚ) * t)).toNat]? with
  | none => rfl
  | some p =>
    by_cases hm : p.max = 0
    · simp [hm]
    · simp [hm]

/-- Witness for C2 in the degenerate case `numPoints = 0`. -/
theorem approximatedSqrt_cutoff_or_fallback_witness :
    (generatePoints randZero 0 0).approximatedSqrt
      = (((generatePoints randZero 0 0).points[(Int.floor (((0 : ℕ) : ℚ) * 0)).toNat]?).map
          Point.max).getD 0 :=
  approximatedSqrt_cutoff_or_fallback randZero 0 0 (by norm_num)

/-- C3: the selection cutoff used by `generatePoints` is
`floor(numPoints * targetValue)` applied to `targetValue` itself, not to any
transformed value of it: the point stored at position `k` carries
`selected = true` exactly when `k ≤ floor(numPoints * targetValue)`. -/
theorem cutoff_is_floor_of_targetValue (rand : ℕ → ℚ) (t : ℚ) (n k : ℕ) (hk : k < n) :
    ((generatePoints rand t n).points[k]?).map Point.selected
      = some (decide ((k : ℤ) ≤ Int.floor ((n : ℚ) * t))) := by
  have hlen : k < (generatePoints rand t n).points.length := by
    rw [length_generatePoints]; exact hk
  obtain ⟨p, hp⟩ : ∃ p, (generatePoints rand t n).points[k]? = some p :=
    ⟨_, List.getElem?_eq_getElem hlen⟩
  rw [hp, Option.map_some', selected_of_getElem? rand t n k p hp]

/-- Witness for C3 at position 3 with `targetValue = 1/2`, `numPoints = 100`. -/
theorem cutoff_is_floor_of_targetValue_witness :
    ((generatePoints randZero (1 / 2) 100).points[3]?).map Point.selected
      = some (decide (((3 : ℕ) : ℤ) ≤ Int.floor (((100 : ℕ) : ℚ) * (1 / 2)))) :=
  cutoff_is_floor_of_targetValue randZero (1 / 2) 100 3 (by norm_num)

/-- C4: for every input (so in particular every clamped one), the point
sequence returned by `generatePoints` is ordered non-decreasingly in the
`max` field. -/
theorem points_sorted_by_max (rand : ℕ → ℚ) (t : ℚ) (n : ℕ) :
    (generatePoints rand t n).points.Pairwise (fun a b => a.max ≤ b.max) :=
  points_pairwise rand t n

/-- C5: for every input (so in particular every `numPoints` in
`[100, 10000]` and `targetValue` in `[0, 1]`), the sequence returned by
`generatePoints` has exactly `numPoints` elements. -/
theorem points_length_eq_numPoints (rand : ℕ → ℚ) (t : ℚ) (n : ℕ) :
    (generatePoints rand t n).points.length = n :=
  length_generatePoints rand t n

/-- C6: generating the points in internal chunks of size 1000 produces
exactly the same final point sequence and `approximatedSqrt` as generating
all `numPoints` points in a single pass, given the same stream of random
draws; sorting and thresholding happen only after all chunks are generated. -/
theorem chunked_eq_singlePass (rand : ℕ → ℚ) (t : ℚ) (n : ℕ) :
    generatePoints rand t n = generatePointsSinglePass rand t n := by
  unfold generatePoints generatePointsSinglePass
  rw [newPoints_eq_singlePass]

/-- C7: when every random draw lies in `[0, 1)` (the range of
`Math.random()`), every point in the sequence returned by `generatePoints`
has `max = max(x, y)` and both coordinates in `[0, 1]`. -/
theorem points_satisfy_invariant (rand : ℕ → ℚ) (t : ℚ) (n : ℕ)
    (hr : ∀ i, 0 ≤ rand i ∧ rand i < 1) :
    (generatePoints rand t n).points.all pointInvariant = true := by
  rw [List.all_eq_true]
  intro q hq
  rw [generatePoints_points] at hq
  obtain ⟨p, hp, hx, hy, hm⟩ := mem_markFrom _ _ _ q hq
  have hp2 : p ∈ newPoints rand n := (sortByMax_perm _).subset hp
  rw [newPoints_eq_singlePass, newPointsSinglePass, List.mem_map] at hp2
  obtain ⟨k, _, hdp⟩ := hp2
  have hpx : p.x = rand (2 * k) := by rw [← hdp]; rfl
  have hpy : p.y = rand (2 * k + 1) := by rw [← hdp]; rfl
  have hpm : p.max = max p.x p.y := by rw [← hdp]; rfl
  simp only [pointInvariant, Bool.and_eq_true, decide_eq_true_eq]
  refine ⟨⟨⟨⟨?_, ?_⟩, ?_⟩, ?_⟩, ?_⟩
  · rw [hm, hx, hy]; exact hpm
  · rw [hx, hpx]; exact (hr (2 * k)).1
  · rw [hx, hpx]; exact le_of_lt (hr (2 * k)).2
  · rw [hy, hpy]; exact (hr (2 * k + 1)).1
  · rw [hy, hpy]; exact le_of_lt (hr (2 * k + 1)).2

/-- Witness for C7 with the all-zero draw stream. -/
theorem points_satisfy_invariant_witness :
    (generatePoints randZero (1 / 2) 5).points.all pointInvariant = true :=
  points_satisfy_invariant randZero (1 / 2) 5
    (fun i => by constructor <;> norm_num [randZero])

/-- C8: for every raw numeric input, `handleTargetInput` passes a
`targetValue` in `[0, 1]` and `handlePointsInput` passes a `numPoints` in
`[100, 10000]` on to `generatePoints`. -/
theorem handlers_clamp_inputs (v w : ℚ) :
    (0 ≤ handleTargetInput v ∧ handleTargetInput v ≤ 1)
      ∧ (100 ≤ handlePointsInput w ∧ handlePointsInput w ≤ 10000) := by
  refine ⟨⟨le_max_left 0 _, ?_⟩, le_max_left 100 _, ?_⟩
  · exact max_le (by norm_num) (min_le_left 1 v)
  · exact max_le (by norm_num) (min_le_left 10000 w)

/-- C9: at `targetValue = 1` the cutoff `floor(numPoints * 1) = numPoints`
is one past the last index, so `generatePoints` returns the fallback
`approximatedSqrt = 0` while every point is marked selected, and
`actualSqrt = sqrt(1) = 1`; the approximation at the upper endpoint is `0`,
not near `1`. Stated for every `numPoints`, hence for every `numPoints ≥ 1`. -/
theorem target_one_gives_zero_approx (rand : ℕ → ℚ) (n : ℕ) :
    Int.floor ((n : ℚ) * 1) = (n : ℤ)
      ∧ (generatePoints rand 1 n).approximatedSqrt = 0
      ∧ (generatePoints rand 1 n).points.all Point.selected = true
      ∧ actualSqrt 1 = 1 := by
  have hfloor : Int.floor ((n : ℚ) * 1) = (n : ℤ) := by
    rw [mul_one, Int.floor_natCast]
  refine ⟨hfloor, ?_, ?_, ?_⟩
  · rw [generatePoints_approx, hfloor]
    unfold approxAt
    rw [if_pos (Int.natCast_nonneg n), Int.toNat_natCast,
      List.getElem?_eq_none (by simp [length_generatePoints])]
  · rw [List.all_eq_true]
    intro q hq
    obtain ⟨k, hk, hqk⟩ := List.mem_iff_getElem.mp hq
    have hq2 : (generatePoints rand 1 n).points[k]? = some q := by
      rw [List.getElem?_eq_getElem hk, hqk]
    have hsel := selected_of_getElem? rand 1 n k q hq2
    rw [hsel, hfloor, decide_eq_true_eq]
    rw [length_generatePoints] at hk
    omega
  · unfold actualSqrt
    rw [Rat.cast_one, Real.sqrt_one]

/-- C10: after every call to `generatePoints`, the selected points form a
prefix of the ordered output: for every pair of points in the result where
the first is selected and the second is not, the first's `max` does not
exceed the second's. -/
theorem selected_points_precede_unselected (rand : ℕ → ℚ) (t : ℚ) (n : ℕ) :
    selectedBeforeUnselected (generatePoints rand t n).points = true := by
  unfold selectedBeforeUnselected
  rw [List.all_eq_true]
  intro p hp
  rw [List.all_eq_true]
  intro q hq
  cases hps : p.selected with
  | false => simp [hps]
  | true =>
    cases hqs : q.selected with
    | true => simp [hqs]
    | false =>
      obtain ⟨k, hk, hpk⟩ := List.mem_iff_getElem.mp hp
      obtain ⟨j, hj, hqj⟩ := List.mem_iff_getElem.mp hq
      have hp2 : (generatePoints rand t n).points[k]? = some p := by
        rw [List.getElem?_eq_getElem hk, hpk]
      have hq2 : (generatePoints rand t n).points[j]? = some q := by
        rw [List.getElem?_eq_getElem hj, hqj]
      have hks := selected_of_getElem? rand t n k p hp2
      have hjs := selected_of_getElem? rand t n j q hq2
      rw [hps] at hks
      rw [hqs] at hjs
      have hkc : (k : ℤ) ≤ Int.floor ((n : ℚ) * t) := of_decide_eq_true hks.symm
      have hjc : ¬ ((j : ℤ) ≤ Int.floor ((n : ℚ) * t)) := of_decide_eq_false hjs.symm
      have hkj : k < j := by omega
      have hle := List.pairwise_iff_getElem.mp (points_pairwise rand t n) k j hk hj hkj
      rw [hpk, hqj] at hle
      simp [hps, hqs, hle]

end RandSqrt
